/-
Verification development for the nmis_dpp repository.

Shallow embedding of:
  - nmis_dpp/eclass_build_mapping.py : namespace-agnostic XML helpers,
    load_units, load_properties_and_classes, build_part_class_mapping;
  - nmis_dpp/schema_base.py : the SchemaMapper contract, map_dpp and
    map_part_class;
  - nmis_dpp/part_class.py : the PartClass record.

Python dicts are modelled as insertion-ordered association lists
(List (String × V)) whose keys stay unique; assignment to an existing
key replaces the value in place, assignment to a fresh key appends.
Python strings are Lean Strings; "x or y" on strings is if x = "" then
y else x; a string-valued attribute that Python stores as `s or None`
becomes Option String with "" mapped to none.
-/
import Mathlib

/-- JSON-like values, standing in for Python's Any in Dict[str, Any]. -/
inductive Val where
  | null
  | str (s : String)
  | num (n : Int)
  | bool (b : Bool)
  | list (xs : List Val)
  | dict (fields : List (String × Val))
deriving Repr

/-- An XML element as xml.etree.ElementTree exposes it: a (namespace,
local-name) tag, attributes, text content, and child elements. -/
inductive XmlElem where
  | mk (ns : Option String) (localName : String)
       (attrs : List (String × String)) (textContent : Option String)
       (children : List XmlElem)
deriving Repr

def XmlElem.ns : XmlElem → Option String
  | .mk n _ _ _ _ => n

def XmlElem.localName : XmlElem → String
  | .mk _ l _ _ _ => l

def XmlElem.attrs : XmlElem → List (String × String)
  | .mk _ _ a _ _ => a

def XmlElem.textContent : XmlElem → Option String
  | .mk _ _ _ t _ => t

def XmlElem.children : XmlElem → List XmlElem
  | .mk _ _ _ _ cs => cs

/-- Element.get(name): attribute lookup, None when absent. -/
def XmlElem.attr (e : XmlElem) (a : String) : Option String :=
  e.attrs.lookup a

/-- All proper descendants of an element, in document (preorder) order;
the node set that an ElementTree ".//" path walks. -/
def XmlElem.descendants : XmlElem → List XmlElem
  | .mk _ _ _ _ cs => go cs
where go : List XmlElem → List XmlElem
  | [] => []
  | c :: rest => c :: c.descendants ++ go rest

/-- eclass_build_mapping._findall_any_ns: elem.findall(".//{*}local_name"),
i.e. every descendant whose local tag name equals local_name, whatever
namespace (or none) the element carries. -/
def findall_any_ns (elem : XmlElem) (local_name : String) : List XmlElem :=
  elem.descendants.filter (fun d => d.localName == local_name)

/-- Python str.strip(): drop leading and trailing whitespace. -/
def pyStrip (s : String) : String :=
  String.mk (((s.data.dropWhile Char.isWhitespace).reverse.dropWhile
    Char.isWhitespace).reverse)

/-- eclass_build_mapping._findtext_any_ns: text of the first matching
descendant, stripped, or "" when there is none. -/
def findtext_any_ns (elem : XmlElem) (local_name : String) : String :=
  match findall_any_ns elem local_name with
  | [] => ""
  | found => (((found.head?).map (fun f => pyStrip (f.textContent.getD ""))).getD "")

/-- Python "a or b" for strings: b when a is the empty string. -/
def pyOr (a b : String) : String :=
  if a = "" then b else a

/-- Python "a or b" where both operands are optional strings (None and ""
are falsy). -/
def pyTruthy : Option String → Bool
  | none => false
  | some s => s ≠ ""

def pyOrOpt (a b : Option String) : Option String :=
  if pyTruthy a then a else b

/-- Python dict assignment d[k] = v on an insertion-ordered association
list: replace in place when the key exists, append otherwise. -/
def dinsert {V : Type} (m : List (String × V)) (k : String) (v : V) :
    List (String × V) :=
  if m.any (fun p => p.1 == k) then
    m.map (fun p => if p.1 = k then (k, v) else p)
  else
    m ++ [(k, v)]

/-- One value of the units table: {"name": name or None, "symbol": symbol or None}. -/
structure UnitEntry where
  name : Option String
  symbol : Option String
deriving Repr, DecidableEq

/-- uid = (u.get("id") or "").strip() -/
def unitId (u : XmlElem) : String :=
  pyStrip ((u.attr "id").getD "")

/-- name = _findtext_any_ns(u, "UnitName") -/
def unitName (u : XmlElem) : String :=
  findtext_any_ns u "UnitName"

/-- symbol = _findtext_any_ns(u, "UnitSymbol") -/
def unitSymbol (u : XmlElem) : String :=
  findtext_any_ns u "UnitSymbol"

/-- key = uid or symbol -/
def unitKeyOf (u : XmlElem) : String :=
  pyOr (unitId u) (unitSymbol u)

/-- The value stored for one Unit element. -/
def unitEntryOf (u : XmlElem) : UnitEntry :=
  ⟨if unitName u = "" then none else some (unitName u),
   if unitSymbol u = "" then none else some (unitSymbol u)⟩

/-- Body of the Unit loop: skip when the key is empty, else store
units[key] = entry. -/
def unitStep (units : List (String × UnitEntry)) (u : XmlElem) :
    List (String × UnitEntry) :=
  let key := unitKeyOf u
  if key = "" then units
  else dinsert units key (unitEntryOf u)

/-- load_units, applied to the root of the (already read) UnitsML document;
the FileNotFoundError branch guards file access and is outside the embedding. -/
def load_units (root : XmlElem) : List (String × UnitEntry) :=
  List.foldl unitStep [] (findall_any_ns root "Unit")

/-- Does this Unit element write the key k? -/
def unitContributes (k : String) (u : XmlElem) : Bool :=
  unitKeyOf u == k && !(unitKeyOf u == "")

/-- One value of the props table; fields absent from the Python dict are none. -/
structure PropEntry where
  name : Option String
  unit_ref : Option String
deriving Repr, DecidableEq

/-- One value of the classes table; "name" is always present (possibly ""). -/
structure ClassEntry where
  name : String
  properties : List String
deriving Repr, DecidableEq

abbrev Props := List (String × PropEntry)

abbrev Classes := List (String × ClassEntry)

/-- irdi = _findtext_any_ns(p, "IRDI") -/
def propIrdi (p : XmlElem) : String :=
  findtext_any_ns p "IRDI"

/-- name = _findtext_any_ns(p, "PreferredName") or _findtext_any_ns(p, "ShortName") -/
def propName (p : XmlElem) : String :=
  pyOr (findtext_any_ns p "PreferredName") (findtext_any_ns p "ShortName")

/-- unit_ref = _findtext_any_ns(p, "Unit") -/
def propUnitRef (p : XmlElem) : String :=
  findtext_any_ns p "Unit"

/-- entry = props.setdefault(irdi, {}); if name: entry["name"] = name;
if unit_ref: entry["unit_ref"] = unit_ref -/
def updatePropEntry (pr : Props) (irdi name unit_ref : String) : Props :=
  let old := (List.lookup irdi pr).getD ⟨none, none⟩
  dinsert pr irdi
    ⟨if name = "" then old.name else some name,
     if unit_ref = "" then old.unit_ref else some unit_ref⟩

/-- Body of the PROPERTY loop (with the `continue` on an empty IRDI). -/
def processProp (pr : Props) (p : XmlElem) : Props :=
  if propIrdi p = "" then pr
  else updatePropEntry pr (propIrdi p) (propName p) (propUnitRef p)

/-- class_code = findtext "ClassificationClassCode", falling back to "ClassCode". -/
def classCode (c : XmlElem) : String :=
  pyOr (findtext_any_ns c "ClassificationClassCode") (findtext_any_ns c "ClassCode")

/-- cname = findtext "PreferredName" or findtext "ShortName". -/
def className (c : XmlElem) : String :=
  pyOr (findtext_any_ns c "PreferredName") (findtext_any_ns c "ShortName")

/-- The non-empty PropertyIRDI texts of the ClassPropertyLink descendants,
in document order (the inner link loop). -/
def classLinks (c : XmlElem) : List String :=
  (findall_any_ns c "ClassPropertyLink").filterMap (fun link =>
    let i := findtext_any_ns link "PropertyIRDI"
    if i = "" then none else some i)

/-- class_entry = classes.setdefault(class_code, {"name": cname, "properties": []});
if cname: class_entry["name"] = cname; then append the link IRDIs. -/
def updateClassEntry (cl : Classes) (code cname : String) (links : List String) : Classes :=
  match List.lookup code cl with
  | none => dinsert cl code ⟨cname, links⟩
  | some old => dinsert cl code ⟨if cname = "" then old.name else cname, old.properties ++ links⟩

/-- Body of the CLASS loop (with the `continue` on an empty code). -/
def processClass (cl : Classes) (c : XmlElem) : Classes :=
  if classCode c = "" then cl
  else updateClassEntry cl (classCode c) (className c) (classLinks c)

/-- One ASSET document: the PROPERTY loop, then the CLASS loop. -/
def processDoc (acc : Classes × Props) (root : XmlElem) : Classes × Props :=
  let props := List.foldl processProp acc.2 (findall_any_ns root "PROPERTY")
  let classes := List.foldl processClass acc.1 (findall_any_ns root "CLASS")
  (classes, props)

/-- load_properties_and_classes, applied to the parsed document roots in the
order the sorted path list yields them. -/
def load_properties_and_classes (docs : List XmlElem) : Classes × Props :=
  List.foldl processDoc ([], []) docs

/-- How one further CLASS occurrence combines with the table state at its code. -/
def mergeClass : Option ClassEntry → String × List String → Option ClassEntry
  | none, occ => some ⟨occ.1, occ.2⟩
  | some old, occ => some ⟨if occ.1 = "" then old.name else occ.1, old.properties ++ occ.2⟩

/-- How one further PROPERTY occurrence combines with the table state at its IRDI. -/
def mergeProp (acc : Option PropEntry) (occ : String × String) : Option PropEntry :=
  let old := acc.getD ⟨none, none⟩
  some ⟨if occ.1 = "" then old.name else some occ.1,
        if occ.2 = "" then old.unit_ref else some occ.2⟩

/-- The (name, links) payload of one CLASS element when it is a retained
occurrence of the given code. -/
def classOccOf (code : String) (c : XmlElem) : Option (String × List String) :=
  if classCode c = code ∧ code ≠ "" then some (className c, classLinks c) else none

/-- The (name, links) payloads of the CLASS occurrences carrying the given
code, across all documents, in processing order. -/
def classOccs (docs : List XmlElem) (code : String) : List (String × List String) :=
  (docs.flatMap (fun root => findall_any_ns root "CLASS")).filterMap (classOccOf code)

/-- The (name, unit_ref) payload of one PROPERTY element when it is a
retained occurrence of the given IRDI. -/
def propOccOf (irdi : String) (p : XmlElem) : Option (String × String) :=
  if propIrdi p = irdi ∧ irdi ≠ "" then some (propName p, propUnitRef p) else none

/-- The (name, unit_ref) payloads of the PROPERTY occurrences carrying the
given IRDI, across all documents, in processing order. -/
def propOccs (docs : List XmlElem) (irdi : String) : List (String × String) :=
  (docs.flatMap (fun root => findall_any_ns root "PROPERTY")).filterMap (propOccOf irdi)

/-- One property record of the emitted mapping. -/
structure MappedProp where
  irdi : String
  name : Option String
  unit : Option String
  unit_ref : Option String
deriving Repr, DecidableEq

/-- One class record of the emitted mapping. -/
structure MappedClass where
  eclass_code : String
  eclass_name : String
  properties : List (String × MappedProp)
deriving Repr, DecidableEq

/-- Python truthiness of a props-table entry (an empty dict is falsy). -/
def propIsEmpty (p : PropEntry) : Bool :=
  p.name.isNone && p.unit_ref.isNone

/-- The record built for one resolvable property:
unit_info = units.get(unit_ref, \x7b\x7d) if unit_ref else \x7b\x7d, and
"unit" = unit_info.get("symbol") or unit_info.get("name"). -/
def mkMappedProp (irdi : String) (p : PropEntry) (units : List (String × UnitEntry)) :
    MappedProp :=
  let unit_info : UnitEntry :=
    if pyTruthy p.unit_ref then (List.lookup (p.unit_ref.getD "") units).getD ⟨none, none⟩
    else ⟨none, none⟩
  ⟨irdi, p.name, pyOrOpt unit_info.symbol unit_info.name, p.unit_ref⟩

/-- Body of the inner property loop: p = props.get(irdi, \x7b\x7d);
if not p: continue; then prop_entries[irdi] = \x7b...\x7d. -/
def addPropEntry (props : Props) (units : List (String × UnitEntry))
    (pe : List (String × MappedProp)) (irdi : String) : List (String × MappedProp) :=
  match List.lookup irdi props with
  | none => pe
  | some p => if propIsEmpty p then pe else dinsert pe irdi (mkMappedProp irdi p units)

/-- prop_entries for one class. -/
def buildClassProps (cinfo : ClassEntry) (props : Props)
    (units : List (String × UnitEntry)) : List (String × MappedProp) :=
  List.foldl (addPropEntry props units) [] cinfo.properties

/-- Body of the outer class loop:
mapping[class_code] = {eclass_code, eclass_name, properties}. -/
def buildClassStep (props : Props) (units : List (String × UnitEntry))
    (mapping : List (String × MappedClass)) (ckv : String × ClassEntry) :
    List (String × MappedClass) :=
  dinsert mapping ckv.1 ⟨ckv.1, ckv.2.name, buildClassProps ckv.2 props units⟩

/-- build_part_class_mapping over the three tables. -/
def build_part_class_mapping (classes : Classes) (props : Props)
    (units : List (String × UnitEntry)) : List (String × MappedClass) :=
  List.foldl (buildClassStep props units) [] classes

/-- Is the IRDI retained by the inner property loop? -/
def keptProp (props : Props) (i : String) : Bool :=
  match List.lookup i props with
  | none => false
  | some p => !(propIsEmpty p)

/-- Modelled from the spec: nmis_dpp.model (the module defining the six
passport layers and DigitalProductPassport) is not among the sources; the
spec treats the layers as flat record types, pure data containers with no
behavior, whose internals map_dpp never inspects. Each layer is therefore
a record wrapping an opaque payload. -/
structure IdentityLayer where
  payload : Val

/-- Modelled from the spec: see IdentityLayer. -/
structure StructureLayer where
  payload : Val

/-- Modelled from the spec: see IdentityLayer. -/
structure LifecycleLayer where
  payload : Val

/-- Modelled from the spec: see IdentityLayer. -/
structure RiskLayer where
  payload : Val

/-- Modelled from the spec: see IdentityLayer. -/
structure SustainabilityLayer where
  payload : Val

/-- Modelled from the spec: see IdentityLayer. -/
structure ProvenanceLayer where
  payload : Val

/-- Modelled from the spec: the passport record holding the six layers. -/
structure DigitalProductPassport where
  identity : IdentityLayer
  «structure» : StructureLayer
  lifecycle : LifecycleLayer
  risk : RiskLayer
  sustainability : SustainabilityLayer
  provenance : ProvenanceLayer

/-- part_class.PartClass: the base record all part types share. -/
structure PartClass where
  part_id : String
  name : String
  type : String
  properties : List (String × Val)

/-- dataclasses.asdict on a PartClass instance: one key per declared field. -/
def asdict (part : PartClass) : List (String × Val) :=
  [("part_id", Val.str part.part_id),
   ("name", Val.str part.name),
   ("type", Val.str part.type),
   ("properties", Val.dict part.properties)]

/-- A concrete adapter: its immutable configuration plus the implementations
of the abstract methods a subclass must provide. -/
structure SchemaMapper where
  config : List (String × Val)
  get_schema_name : String
  get_schema_version : String
  get_context : Val
  map_identity_layer : IdentityLayer → Val
  map_structure_layer : StructureLayer → Val
  map_lifecycle_layer : LifecycleLayer → Val
  map_risk_layer : RiskLayer → Val
  map_sustainability_layer : SustainabilityLayer → Val
  map_provenance_layer : ProvenanceLayer → Val
  validate_mapping : List (String × Val) → Bool × List String

/-- Python "; ".join(errors). -/
def pyJoin (sep : String) : List String → String
  | [] => ""
  | [x] => x
  | x :: y :: xs => x ++ sep ++ pyJoin sep (y :: xs)

/-- The `mapped` document map_dpp assembles before validating. -/
def SchemaMapper.mapped_doc (m : SchemaMapper) (dpp : DigitalProductPassport) :
    List (String × Val) :=
  [("schema", Val.str m.get_schema_name),
   ("schema_version", Val.str m.get_schema_version),
   ("@context", m.get_context),
   ("identity", m.map_identity_layer dpp.identity),
   ("structure", m.map_structure_layer dpp.«structure»),
   ("lifecycle", m.map_lifecycle_layer dpp.lifecycle),
   ("risk", m.map_risk_layer dpp.risk),
   ("sustainability", m.map_sustainability_layer dpp.sustainability),
   ("provenance", m.map_provenance_layer dpp.provenance)]

/-- SchemaMapper.map_dpp: assemble, validate, raise ValueError with the
joined violation list on invalid, return the document on valid (the
try/except block re-raises unchanged, so it does not alter the result). -/
def SchemaMapper.map_dpp (m : SchemaMapper) (dpp : DigitalProductPassport) :
    Except String (List (String × Val)) :=
  let mapped := m.mapped_doc dpp
  match m.validate_mapping mapped with
  | (true, _) => Except.ok mapped
  | (false, errors) => Except.error ("Validation failed: " ++ pyJoin "; " errors)

/-- SchemaMapper.map_part_class, the default (non-overridden) body:
return asdict(part). -/
def SchemaMapper.map_part_class (_m : SchemaMapper) (part : PartClass) :
    List (String × Val) :=
  asdict part

/-- Reconstruction of a PartClass from a mapped-part document, following the
claim's words (identity projection of the declared fields): succeeds only
when the document consists of exactly the four declared fields. -/
def partClassOfDict (d : List (String × Val)) : Option PartClass :=
  match d with
  | [(k1, Val.str i), (k2, Val.str n), (k3, Val.str t), (k4, Val.dict ps)] =>
    if k1 = "part_id" ∧ k2 = "name" ∧ k3 = "type" ∧ k4 = "properties" then
      some ⟨i, n, t, ps⟩
    else
      none
  | _ => none

/-- Path-wise comparison of (path, parsed document) pairs. -/
def pathLe (a b : String × XmlElem) : Bool :=
  decide (a.1 ≤ b.1)

/-- sorted(...) over the files the directory scan found: the documents are
parsed in sorted path order. -/
def sortPaths (files : List (String × XmlElem)) : List (String × XmlElem) :=
  files.mergeSort pathLe

/-- The classification parse over the files found in a directory:
sort the paths, then run load_properties_and_classes over the parsed
documents in that order. -/
def loadFromDir (files : List (String × XmlElem)) : Classes × Props :=
  load_properties_and_classes ((sortPaths files).map Prod.snd)

/-- A leaf element holding only text. -/
def mkTextElem (tag s : String) : XmlElem :=
  .mk none tag [] (some s) []

/-- A CLASS element with a code, a preferred name and property links. -/
def mkClassElem (code cname : String) (links : List String) : XmlElem :=
  .mk none "CLASS" [] none
    ([mkTextElem "ClassificationClassCode" code, mkTextElem "PreferredName" cname]
      ++ links.map (fun i => XmlElem.mk none "ClassPropertyLink" [] none
          [mkTextElem "PropertyIRDI" i]))

/-- One document declaring class code 27 twice, with different names and links. -/
def dupClassDoc : XmlElem :=
  .mk none "eclass" [] none
    [mkClassElem "27" "First" ["P1"], mkClassElem "27" "Second" ["P2"]]

/-- The same document with only the later occurrence. -/
def lastOnlyClassDoc : XmlElem :=
  .mk none "eclass" [] none [mkClassElem "27" "Second" ["P2"]]

def unitElemA : XmlElem :=
  .mk (some "http://www.unitsml.org/UnitsML/1.0") "Unit" [("id", "u1")] none
    [mkTextElem "UnitName" "metre", mkTextElem "UnitSymbol" "m"]

def unitElemB : XmlElem :=
  .mk none "Unit" [] none [mkTextElem "UnitSymbol" "kg"]

def unitsRoot : XmlElem :=
  .mk none "UnitsML" [] none [unitElemA, unitElemB]

def unitDup1 : XmlElem :=
  .mk none "Unit" [("id", "u")] none [mkTextElem "UnitName" "first"]

def unitDup2 : XmlElem :=
  .mk none "Unit" [("id", "u")] none [mkTextElem "UnitName" "second"]

def dupUnitsRoot : XmlElem :=
  .mk none "UnitsML" [] none [unitDup1, unitDup2]

def tElemB : XmlElem :=
  .mk (some "nsB") "T" [] (some "  hi ") []

def tElemC : XmlElem :=
  .mk none "T" [] (some "x") []

def nsSampleRoot : XmlElem :=
  .mk (some "nsA") "root" [] none [tElemB, tElemC]

def docA : XmlElem :=
  .mk none "A" [] none []

def docB : XmlElem :=
  .mk none "B" [] none []

/-- An adapter whose validator reports two violations. -/
def failMapper : SchemaMapper where
  config := []
  get_schema_name := "ECLASS"
  get_schema_version := "16.0"
  get_context := Val.dict []
  map_identity_layer := fun _ => Val.dict []
  map_structure_layer := fun _ => Val.dict []
  map_lifecycle_layer := fun _ => Val.dict []
  map_risk_layer := fun _ => Val.dict []
  map_sustainability_layer := fun _ => Val.dict []
  map_provenance_layer := fun _ => Val.dict []
  validate_mapping := fun _ => (false, ["missing id", "missing context"])

/-- An adapter whose validator accepts. -/
def okMapper : SchemaMapper where
  config := []
  get_schema_name := "ECLASS"
  get_schema_version := "16.0"
  get_context := Val.dict []
  map_identity_layer := fun _ => Val.dict []
  map_structure_layer := fun _ => Val.dict []
  map_lifecycle_layer := fun _ => Val.dict []
  map_risk_layer := fun _ => Val.dict []
  map_sustainability_layer := fun _ => Val.dict []
  map_provenance_layer := fun _ => Val.dict []
  validate_mapping := fun _ => (true, [])

def sampleDpp : DigitalProductPassport :=
  ⟨⟨Val.null⟩, ⟨Val.null⟩, ⟨Val.null⟩, ⟨Val.null⟩, ⟨Val.null⟩, ⟨Val.null⟩⟩

theorem lookup_cons_self {V : Type} (a : String) (b : V) (m : List (String × V)) :
    List.lookup a ((a, b) :: m) = some b := by
  simp [List.lookup_cons]

theorem lookup_cons_ne {V : Type} (a k : String) (b : V) (m : List (String × V))
    (h : k ≠ a) : List.lookup k ((a, b) :: m) = List.lookup k m := by
  rw [List.lookup_cons, beq_eq_false_iff_ne.mpr h]

theorem lookup_of_not_any {V : Type} (m : List (String × V)) (k : String)
    (h : m.any (fun p => p.1 == k) = false) : List.lookup k m = none := by
  induction m with
  | nil => rfl
  | cons p m ih =>
    obtain ⟨a, b⟩ := p
    rw [List.any_cons, Bool.or_eq_false_iff] at h
    have hne : k ≠ a := by
      intro hc
      subst hc
      simp at h
    rw [lookup_cons_ne a k b m hne]
    exact ih h.2

theorem lookup_append_single {V : Type} (m : List (String × V)) (k k' : String) (v : V) :
    List.lookup k' (m ++ [(k, v)]) =
      match List.lookup k' m with
      | some w => some w
      | none => if k' = k then some v else none := by
  induction m with
  | nil =>
    by_cases h : k' = k
    · subst h
      rw [List.nil_append, lookup_cons_self]
      simp
    · rw [List.nil_append, lookup_cons_ne k k' v [] h]
      simp [h]
  | cons p m ih =>
    obtain ⟨a, b⟩ := p
    by_cases hp : k' = a
    · subst hp
      rw [List.cons_append, lookup_cons_self, lookup_cons_self]
    · rw [List.cons_append, lookup_cons_ne a k' b _ hp, lookup_cons_ne a k' b m hp]
      exact ih

theorem lookup_map_replace_ne {V : Type} (m : List (String × V)) (k k' : String) (v : V)
    (h : k' ≠ k) :
    List.lookup k' (m.map (fun p => if p.1 = k then (k, v) else p)) =
      List.lookup k' m := by
  induction m with
  | nil => rfl
  | cons p m ih =>
    obtain ⟨a, b⟩ := p
    by_cases ha : a = k
    · subst ha
      have hmap : List.map (fun p => if p.1 = a then (a, v) else p) ((a, b) :: m)
          = (a, v) :: List.map (fun p => if p.1 = a then (a, v) else p) m := by simp
      rw [hmap, lookup_cons_ne a k' v _ h, lookup_cons_ne a k' b m h]
      exact ih
    · have hmap : List.map (fun p => if p.1 = k then (k, v) else p) ((a, b) :: m)
          = (a, b) :: List.map (fun p => if p.1 = k then (k, v) else p) m := by simp [ha]
      rw [hmap]
      by_cases hk'a : k' = a
      · subst hk'a
        rw [lookup_cons_self, lookup_cons_self]
      · rw [lookup_cons_ne a k' b _ hk'a, lookup_cons_ne a k' b m hk'a]
        exact ih

theorem lookup_map_replace_self {V : Type} (m : List (String × V)) (k : String) (v : V)
    (h : m.any (fun p => p.1 == k) = true) :
    List.lookup k (m.map (fun p => if p.1 = k then (k, v) else p)) = some v := by
  induction m with
  | nil => simp at h
  | cons p m ih =>
    obtain ⟨a, b⟩ := p
    by_cases ha : a = k
    · subst ha
      have hmap : List.map (fun p => if p.1 = a then (a, v) else p) ((a, b) :: m)
          = (a, v) :: List.map (fun p => if p.1 = a then (a, v) else p) m := by simp
      rw [hmap, lookup_cons_self]
    · have h' : m.any (fun p => p.1 == k) = true := by
        rw [List.any_cons] at h
        rcases Bool.or_eq_true_iff.mp h with h1 | h1
        · exact absurd (beq_iff_eq.mp h1) ha
        · exact h1
      have hmap : List.map (fun p => if p.1 = k then (k, v) else p) ((a, b) :: m)
          = (a, b) :: List.map (fun p => if p.1 = k then (k, v) else p) m := by simp [ha]
      rw [hmap, lookup_cons_ne a k b _ (fun hc => ha hc.symm)]
      exact ih h'

theorem lookup_dinsert {V : Type} (m : List (String × V)) (k k' : String) (v : V) :
    List.lookup k' (dinsert m k v) = if k' = k then some v else List.lookup k' m := by
  unfold dinsert
  cases hany : m.any (fun p => p.1 == k) with
  | false =>
    simp only [Bool.false_eq_true, if_false, lookup_append_single]
    by_cases h : k' = k
    · subst h
      rw [lookup_of_not_any m k' hany]
    · simp only [h, if_false]
      cases List.lookup k' m <;> simp
  | true =>
    simp only [if_true]
    by_cases h : k' = k
    · subst h
      simp [lookup_map_replace_self m k' v hany]
    · simp [h, lookup_map_replace_ne m k k' v h]

/-!  Characterization lemmas for the folds  -/

theorem lookup_foldl_unitStep (us : List XmlElem) :
    ∀ (init : List (String × UnitEntry)) (k : String),
      List.lookup k (List.foldl unitStep init us) =
        match (us.filter (unitContributes k)).getLast? with
        | some u => some (unitEntryOf u)
        | none => List.lookup k init := by
  induction us with
  | nil =>
    intro init k
    rfl
  | cons u us ih =>
    intro init k
    rw [List.foldl_cons, ih (unitStep init u) k, List.filter_cons]
    by_cases hc : unitContributes k u = true
    · rw [if_pos hc]
      cases hl : (us.filter (unitContributes k)).getLast? with
      | some w =>
        have h2 : (u :: us.filter (unitContributes k)).getLast? = some w := by
          cases hfe : us.filter (unitContributes k) with
          | nil => rw [hfe] at hl; simp at hl
          | cons b t =>
            rw [hfe] at hl
            rw [List.getLast?_cons_cons]
            exact hl
        rw [h2]
      | none =>
        have hfe : us.filter (unitContributes k) = [] := List.getLast?_eq_none_iff.mp hl
        rw [hfe]
        have hk : unitKeyOf u = k ∧ unitKeyOf u ≠ "" := by
          unfold unitContributes at hc
          rcases Bool.and_eq_true_iff.mp hc with ⟨h1, h2⟩
          refine ⟨beq_iff_eq.mp h1, ?_⟩
          intro hke
          rw [hke] at h2
          simp at h2
        have hstep : unitStep init u = dinsert init (unitKeyOf u) (unitEntryOf u) := by
          simp [unitStep, hk.2]
        rw [hstep, lookup_dinsert, if_pos hk.1.symm]
        rfl
    · rw [if_neg hc]
      have hcf : unitContributes k u = false := by
        revert hc
        cases unitContributes k u <;> simp
      cases hl : (us.filter (unitContributes k)).getLast? with
      | some w => rfl
      | none =>
        unfold unitContributes at hcf
        by_cases hke : unitKeyOf u = ""
        · simp [unitStep, hke]
        · have hb : (unitKeyOf u == k) = false := by
            cases hbk : (unitKeyOf u == k) with
            | false => rfl
            | true =>
              rw [hbk] at hcf
              simp at hcf
              exact absurd hcf hke
          have hkne := beq_eq_false_iff_ne.mp hb
          have hstep : unitStep init u = dinsert init (unitKeyOf u) (unitEntryOf u) := by
            simp [unitStep, hke]
          rw [hstep, lookup_dinsert, if_neg (fun hkk => hkne hkk.symm)]

theorem lookup_load_units (root : XmlElem) (k : String) :
    List.lookup k (load_units root) =
      match ((findall_any_ns root "Unit").filter (unitContributes k)).getLast? with
      | some u => some (unitEntryOf u)
      | none => none := by
  rw [load_units, lookup_foldl_unitStep]
  cases hl : ((findall_any_ns root "Unit").filter (unitContributes k)).getLast? with
  | some w => rfl
  | none => rfl

theorem lookup_updatePropEntry (pr : Props) (irdi name unit_ref : String) :
    List.lookup irdi (updatePropEntry pr irdi name unit_ref) =
      mergeProp (List.lookup irdi pr) (name, unit_ref) := by
  cases hold : List.lookup irdi pr with
  | none => simp [updatePropEntry, hold, lookup_dinsert, mergeProp]
  | some old => simp [updatePropEntry, hold, lookup_dinsert, mergeProp]

theorem lookup_updatePropEntry_ne (pr : Props) (irdi name unit_ref k : String)
    (h : k ≠ irdi) :
    List.lookup k (updatePropEntry pr irdi name unit_ref) = List.lookup k pr := by
  simp [updatePropEntry, lookup_dinsert, h]

theorem lookup_updateClassEntry (cl : Classes) (code cname : String) (links : List String) :
    List.lookup code (updateClassEntry cl code cname links) =
      mergeClass (List.lookup code cl) (cname, links) := by
  cases hold : List.lookup code cl with
  | none => simp [updateClassEntry, hold, lookup_dinsert, mergeClass]
  | some old => simp [updateClassEntry, hold, lookup_dinsert, mergeClass]

theorem lookup_updateClassEntry_ne (cl : Classes) (code cname : String)
    (links : List String) (k : String) (h : k ≠ code) :
    List.lookup k (updateClassEntry cl code cname links) = List.lookup k cl := by
  cases hold : List.lookup code cl with
  | none => simp [updateClassEntry, hold, lookup_dinsert, h]
  | some old => simp [updateClassEntry, hold, lookup_dinsert, h]

theorem lookup_foldl_processProp (ps : List XmlElem) :
    ∀ (pr : Props) (irdi : String),
      List.lookup irdi (List.foldl processProp pr ps) =
        (ps.filterMap (propOccOf irdi)).foldl mergeProp (List.lookup irdi pr) := by
  induction ps with
  | nil =>
    intro pr irdi
    rfl
  | cons p ps ih =>
    intro pr irdi
    rw [List.foldl_cons, ih (processProp pr p) irdi, List.filterMap_cons]
    by_cases hc : propIrdi p = irdi ∧ irdi ≠ ""
    · have hocc : propOccOf irdi p = some (propName p, propUnitRef p) := by
        unfold propOccOf
        rw [if_pos hc]
      simp only [hocc, List.foldl_cons]
      congr 1
      obtain ⟨hpi, hne⟩ := hc
      simp only [processProp, if_neg (fun h => hne (hpi ▸ h))]
      rw [hpi]
      exact lookup_updatePropEntry pr irdi (propName p) (propUnitRef p)
    · have hocc : propOccOf irdi p = none := by
        unfold propOccOf
        rw [if_neg hc]
      simp only [hocc]
      congr 1
      by_cases hpe : propIrdi p = ""
      · simp [processProp, hpe]
      · have hne : propIrdi p ≠ irdi := fun heq => hc ⟨heq, fun h0 => hpe (heq.trans h0)⟩
        simp only [processProp, if_neg hpe]
        exact lookup_updatePropEntry_ne pr (propIrdi p) (propName p) (propUnitRef p) irdi
          (fun h => hne h.symm)

theorem lookup_foldl_processClass (cs : List XmlElem) :
    ∀ (cl : Classes) (code : String),
      List.lookup code (List.foldl processClass cl cs) =
        (cs.filterMap (classOccOf code)).foldl mergeClass (List.lookup code cl) := by
  induction cs with
  | nil =>
    intro cl code
    rfl
  | cons c cs ih =>
    intro cl code
    rw [List.foldl_cons, ih (processClass cl c) code, List.filterMap_cons]
    by_cases hc : classCode c = code ∧ code ≠ ""
    · have hocc : classOccOf code c = some (className c, classLinks c) := by
        unfold classOccOf
        rw [if_pos hc]
      simp only [hocc, List.foldl_cons]
      congr 1
      obtain ⟨hcc, hne⟩ := hc
      simp only [processClass, if_neg (fun h => hne (hcc ▸ h))]
      rw [hcc]
      exact lookup_updateClassEntry cl code (className c) (classLinks c)
    · have hocc : classOccOf code c = none := by
        unfold classOccOf
        rw [if_neg hc]
      simp only [hocc]
      congr 1
      by_cases hce : classCode c = ""
      · simp [processClass, hce]
      · have hne : classCode c ≠ code := fun heq => hc ⟨heq, fun h0 => hce (heq.trans h0)⟩
        simp only [processClass, if_neg hce]
        exact lookup_updateClassEntry_ne cl (classCode c) (className c) (classLinks c) code
          (fun h => hne h.symm)

theorem lookup_load_pc_props (docs : List XmlElem) :
    ∀ (acc : Classes × Props) (irdi : String),
      List.lookup irdi (List.foldl processDoc acc docs).2 =
        (propOccs docs irdi).foldl mergeProp (List.lookup irdi acc.2) := by
  induction docs with
  | nil =>
    intro acc irdi
    rfl
  | cons d docs ih =>
    intro acc irdi
    rw [List.foldl_cons, ih (processDoc acc d) irdi]
    have h2 : (processDoc acc d).2 = List.foldl processProp acc.2 (findall_any_ns d "PROPERTY") := rfl
    rw [h2, lookup_foldl_processProp]
    unfold propOccs
    rw [List.flatMap_cons, List.filterMap_append, List.foldl_append]

theorem lookup_load_pc_classes (docs : List XmlElem) :
    ∀ (acc : Classes × Props) (code : String),
      List.lookup code (List.foldl processDoc acc docs).1 =
        (classOccs docs code).foldl mergeClass (List.lookup code acc.1) := by
  induction docs with
  | nil =>
    intro acc code
    rfl
  | cons d docs ih =>
    intro acc code
    rw [List.foldl_cons, ih (processDoc acc d) code]
    have h1 : (processDoc acc d).1 = List.foldl processClass acc.1 (findall_any_ns d "CLASS") := rfl
    rw [h1, lookup_foldl_processClass]
    unfold classOccs
    rw [List.flatMap_cons, List.filterMap_append, List.foldl_append]

theorem lookup_classes_table (docs : List XmlElem) (code : String) :
    List.lookup code (load_properties_and_classes docs).1 =
      (classOccs docs code).foldl mergeClass none := by
  rw [load_properties_and_classes, lookup_load_pc_classes]
  rfl

theorem lookup_props_table (docs : List XmlElem) (irdi : String) :
    List.lookup irdi (load_properties_and_classes docs).2 =
      (propOccs docs irdi).foldl mergeProp none := by
  rw [load_properties_and_classes, lookup_load_pc_props]
  rfl

theorem lookup_foldl_addPropEntry_not_mem (links : List String) :
    ∀ (pe : List (String × MappedProp)) (props : Props)
      (units : List (String × UnitEntry)) (i : String),
      i ∉ links →
      List.lookup i (List.foldl (addPropEntry props units) pe links) =
        List.lookup i pe := by
  induction links with
  | nil =>
    intro pe props units i _
    rfl
  | cons a rest ih =>
    intro pe props units i h
    rw [List.foldl_cons, ih _ props units i (fun hm => h (List.mem_cons_of_mem a hm))]
    have hia : i ≠ a := fun hc => h (hc ▸ List.mem_cons_self a rest)
    cases hp : List.lookup a props with
    | none => simp [addPropEntry, hp]
    | some p =>
      by_cases he : propIsEmpty p = true
      · simp [addPropEntry, hp, he]
      · simp [addPropEntry, hp, he, lookup_dinsert, hia]

theorem lookup_foldl_addPropEntry_mem (links : List String) :
    ∀ (pe : List (String × MappedProp)) (props : Props)
      (units : List (String × UnitEntry)) (i : String) (p : PropEntry),
      i ∈ links → List.lookup i props = some p → propIsEmpty p = false →
      List.lookup i (List.foldl (addPropEntry props units) pe links) =
        some (mkMappedProp i p units) := by
  induction links with
  | nil =>
    intro pe props units i p h _ _
    exact absurd h (List.not_mem_nil i)
  | cons a rest ih =>
    intro pe props units i p hmem hp hne
    rw [List.foldl_cons]
    by_cases hir : i ∈ rest
    · exact ih _ props units i p hir hp hne
    · have hia : i = a := by
        rcases List.mem_cons.mp hmem with h | h
        · exact h
        · exact absurd h hir
      subst hia
      rw [lookup_foldl_addPropEntry_not_mem rest _ props units i hir]
      simp [addPropEntry, hp, hne, lookup_dinsert]

theorem isSome_foldl_addPropEntry (links : List String) :
    ∀ (pe : List (String × MappedProp)) (props : Props)
      (units : List (String × UnitEntry)) (i : String),
      (List.lookup i (List.foldl (addPropEntry props units) pe links)).isSome = true ↔
        (i ∈ links ∧ keptProp props i = true) ∨ (List.lookup i pe).isSome = true := by
  induction links with
  | nil =>
    intro pe props units i
    simp
  | cons a rest ih =>
    intro pe props units i
    rw [List.foldl_cons, ih _ props units i]
    have hstep : (List.lookup i (addPropEntry props units pe a)).isSome = true ↔
        ((i = a ∧ keptProp props i = true) ∨ (List.lookup i pe).isSome = true) := by
      by_cases hia : i = a
      · subst hia
        unfold addPropEntry keptProp
        cases hp : List.lookup i props with
        | none => simp [hp]
        | some p =>
          by_cases he : propIsEmpty p = true
          · simp [hp, he]
          · have he' : propIsEmpty p = false := by
              revert he
              cases propIsEmpty p <;> simp
            simp [hp, he', lookup_dinsert]
      · have hkeep : List.lookup i (addPropEntry props units pe a) = List.lookup i pe := by
          unfold addPropEntry
          cases hp : List.lookup a props with
          | none => simp [hp]
          | some p =>
            by_cases he : propIsEmpty p = true
            · simp [hp, he]
            · simp [hp, he, lookup_dinsert, hia]
        simp [hkeep, hia]
    rw [hstep, List.mem_cons]
    tauto

theorem lookup_foldl_buildStep_not_mem (classes : Classes) :
    ∀ (acc : List (String × MappedClass)) (props : Props)
      (units : List (String × UnitEntry)) (code : String),
      code ∉ classes.map Prod.fst →
      List.lookup code (List.foldl (buildClassStep props units) acc classes) =
        List.lookup code acc := by
  induction classes with
  | nil =>
    intro acc props units code _
    rfl
  | cons ckv rest ih =>
    intro acc props units code h
    rw [List.map_cons] at h
    rw [List.foldl_cons, ih _ props units code (fun hm => h (List.mem_cons_of_mem _ hm))]
    have hne : code ≠ ckv.1 := fun hc => h (hc ▸ List.mem_cons_self _ _)
    unfold buildClassStep
    rw [lookup_dinsert, if_neg hne]

theorem lookup_foldl_buildStep_mem (classes : Classes) :
    ∀ (acc : List (String × MappedClass)) (props : Props)
      (units : List (String × UnitEntry)) (code : String) (entry : ClassEntry),
      (classes.map Prod.fst).Nodup → (code, entry) ∈ classes →
      List.lookup code (List.foldl (buildClassStep props units) acc classes) =
        some ⟨code, entry.name, buildClassProps entry props units⟩ := by
  induction classes with
  | nil =>
    intro acc props units code entry _ hm
    exact absurd hm (List.not_mem_nil _)
  | cons ckv rest ih =>
    intro acc props units code entry hnd hm
    obtain ⟨a, e⟩ := ckv
    rw [List.map_cons] at hnd
    obtain ⟨hnotin, htail⟩ := List.nodup_cons.mp hnd
    rw [List.foldl_cons]
    rcases List.mem_cons.mp hm with heq | hm2
    · obtain ⟨hca, hce⟩ := Prod.mk.injEq .. ▸ heq
      subst hca
      subst hce
      have hrest : code ∉ rest.map Prod.fst := hnotin
      rw [lookup_foldl_buildStep_not_mem rest _ props units code hrest]
      unfold buildClassStep
      rw [lookup_dinsert, if_pos rfl]
    · exact ih _ props units code entry htail hm2

theorem lookup_build_part_class_mapping (classes : Classes) (props : Props)
    (units : List (String × UnitEntry)) (code : String) (entry : ClassEntry)
    (hnd : (classes.map Prod.fst).Nodup) (hm : (code, entry) ∈ classes) :
    List.lookup code (build_part_class_mapping classes props units) =
      some ⟨code, entry.name, buildClassProps entry props units⟩ := by
  rw [build_part_class_mapping]
  exact lookup_foldl_buildStep_mem classes [] props units code entry hnd hm

theorem pyJoin_surfaces (sep : String) (l : List String) (e : String) (h : e ∈ l) :
    ∃ s t : String, pyJoin sep l = s ++ e ++ t := by
  induction l with
  | nil => exact absurd h (List.not_mem_nil e)
  | cons x xs ih =>
    cases xs with
    | nil =>
      have hx : e = x := by
        rcases List.mem_cons.mp h with h1 | h1
        · exact h1
        · exact absurd h1 (List.not_mem_nil e)
      subst hx
      exact ⟨"", "", by simp [pyJoin]⟩
    | cons y ys =>
      rcases List.mem_cons.mp h with h1 | h1
      · subst h1
        refine ⟨"", sep ++ pyJoin sep (y :: ys), ?_⟩
        show e ++ sep ++ pyJoin sep (y :: ys) = "" ++ e ++ (sep ++ pyJoin sep (y :: ys))
        rw [String.append_assoc]
        simp
      · obtain ⟨s, t, hst⟩ := ih h1
        refine ⟨x ++ sep ++ s, t, ?_⟩
        show x ++ sep ++ pyJoin sep (y :: ys) = x ++ sep ++ s ++ e ++ t
        rw [hst, ← String.append_assoc, ← String.append_assoc]

theorem pathLe_trans : ∀ (a b c : String × XmlElem),
    pathLe a b = true → pathLe b c = true → pathLe a c = true := by
  intro a b c hab hbc
  unfold pathLe at hab hbc ⊢
  exact decide_eq_true (le_trans (of_decide_eq_true hab) (of_decide_eq_true hbc))

theorem pathLe_total : ∀ (a b : String × XmlElem), (pathLe a b || pathLe b a) = true := by
  intro a b
  rcases le_total a.1 b.1 with h | h
  · simp [pathLe, h]
  · simp [pathLe, h]

theorem sortPaths_sorted (l : List (String × XmlElem)) :
    (sortPaths l).Pairwise (fun a b => a.1 ≤ b.1) := by
  have h := List.sorted_mergeSort pathLe_trans pathLe_total l
  exact h.imp (fun hab => by
    unfold pathLe at hab
    exact of_decide_eq_true hab)

theorem sorted_perm_nodup_eq {α : Type} (key : α → String) :
    ∀ (l₁ l₂ : List α), l₁.Perm l₂ →
      l₁.Pairwise (fun a b => key a ≤ key b) →
      l₂.Pairwise (fun a b => key a ≤ key b) →
      (l₁.map key).Nodup → l₁ = l₂ := by
  intro l₁
  induction l₁ with
  | nil =>
    intro l₂ h _ _ _
    exact (h.symm.eq_nil).symm
  | cons a t₁ ih =>
    intro l₂ h hs₁ hs₂ hnd
    cases l₂ with
    | nil => exact absurd h.eq_nil (by simp)
    | cons b t₂ =>
      have hamem : a ∈ b :: t₂ := h.subset (List.mem_cons_self a t₁)
      have hbmem : b ∈ a :: t₁ := h.symm.subset (List.mem_cons_self b t₂)
      obtain ⟨hs1a, hs1t⟩ := List.pairwise_cons.mp hs₁
      obtain ⟨hs2b, hs2t⟩ := List.pairwise_cons.mp hs₂
      have hab : key a ≤ key b := by
        rcases List.mem_cons.mp hbmem with h1 | h1
        · rw [h1]
        · exact hs1a b h1
      have hba : key b ≤ key a := by
        rcases List.mem_cons.mp hamem with h1 | h1
        · rw [h1]
        · exact hs2b a h1
      have hkeq : key a = key b := le_antisymm hab hba
      have hb : b = a := by
        rcases List.mem_cons.mp hbmem with h1 | h1
        · exact h1
        · exfalso
          rw [List.map_cons] at hnd
          obtain ⟨hnotin, _⟩ := List.nodup_cons.mp hnd
          exact hnotin (by
            rw [hkeq]
            exact List.mem_map_of_mem key h1)
      subst hb
      have hperm : t₁.Perm t₂ := h.cons_inv
      have hndt : (t₁.map key).Nodup := by
        rw [List.map_cons] at hnd
        exact (List.nodup_cons.mp hnd).2
      rw [ih t₂ hperm hs1t hs2t hndt]

theorem sortPaths_eq_of_perm (l₁ l₂ : List (String × XmlElem))
    (hperm : l₁.Perm l₂) (hnd : (l₁.map Prod.fst).Nodup) :
    sortPaths l₁ = sortPaths l₂ := by
  apply sorted_perm_nodup_eq Prod.fst
  · exact ((List.mergeSort_perm l₁ pathLe).trans hperm).trans
      (List.mergeSort_perm l₂ pathLe).symm
  · exact sortPaths_sorted l₁
  · exact sortPaths_sorted l₂
  · have hp : (sortPaths l₁).Perm l₁ := List.mergeSort_perm l₁ pathLe
    exact ((hp.map Prod.fst).nodup_iff).mpr hnd

/-- C1: for every adapter and passport record, when validate_mapping on the
assembled mapped document returns invalid with a list of violations, map_dpp
fails with an error whose message surfaces every violation in that list (not
only the first), and map_dpp does not return any (partially) mapped
document. -/
theorem map_dpp_surfaces_all_violations (m : SchemaMapper)
    (dpp : DigitalProductPassport) (errs : List String)
    (hval : m.validate_mapping (m.mapped_doc dpp) = (false, errs)) :
    ∃ msg, m.map_dpp dpp = Except.error msg
      ∧ (∀ doc, m.map_dpp dpp ≠ Except.ok doc)
      ∧ ∀ e ∈ errs, ∃ s t : String, msg = s ++ e ++ t := by
  refine ⟨"Validation failed: " ++ pyJoin "; " errs, ?_, ?_, ?_⟩
  · simp [SchemaMapper.map_dpp, hval]
  · intro doc hdoc
    simp [SchemaMapper.map_dpp, hval] at hdoc
  · intro e he
    obtain ⟨s, t, hst⟩ := pyJoin_surfaces "; " errs e he
    refine ⟨"Validation failed: " ++ s, t, ?_⟩
    rw [hst, ← String.append_assoc, ← String.append_assoc]

/-- Witness for C1: a concrete adapter with two violations; both appear in
the raised message. -/
theorem map_dpp_surfaces_all_violations_witness :
    ∃ msg, failMapper.map_dpp sampleDpp = Except.error msg
      ∧ (∀ doc, failMapper.map_dpp sampleDpp ≠ Except.ok doc)
      ∧ ∀ e ∈ ["missing id", "missing context"], ∃ s t : String, msg = s ++ e ++ t :=
  map_dpp_surfaces_all_violations failMapper sampleDpp
    ["missing id", "missing context"] rfl

/-- C3: map_dpp is a pure function of its input record and the adapter
configuration: two adapters whose identification, context, layer mappers
(at the given record) and validator agree produce equal output, and in
particular calling map_dpp twice with an unchanged record and unchanged
adapter yields structurally identical output. -/
theorem map_dpp_deterministic (m₁ m₂ : SchemaMapper) (dpp : DigitalProductPassport)
    (hname : m₁.get_schema_name = m₂.get_schema_name)
    (hver : m₁.get_schema_version = m₂.get_schema_version)
    (hctx : m₁.get_context = m₂.get_context)
    (hid : m₁.map_identity_layer dpp.identity = m₂.map_identity_layer dpp.identity)
    (hst : m₁.map_structure_layer dpp.«structure» = m₂.map_structure_layer dpp.«structure»)
    (hlc : m₁.map_lifecycle_layer dpp.lifecycle = m₂.map_lifecycle_layer dpp.lifecycle)
    (hrk : m₁.map_risk_layer dpp.risk = m₂.map_risk_layer dpp.risk)
    (hsu : m₁.map_sustainability_layer dpp.sustainability
            = m₂.map_sustainability_layer dpp.sustainability)
    (hpr : m₁.map_provenance_layer dpp.provenance = m₂.map_provenance_layer dpp.provenance)
    (hv : ∀ d, m₁.validate_mapping d = m₂.validate_mapping d) :
    m₁.map_dpp dpp = m₂.map_dpp dpp ∧ m₁.map_dpp dpp = m₁.map_dpp dpp := by
  have hdoc : m₁.mapped_doc dpp = m₂.mapped_doc dpp := by
    unfold SchemaMapper.mapped_doc
    rw [hname, hver, hctx, hid, hst, hlc, hrk, hsu, hpr]
  refine ⟨?_, rfl⟩
  unfold SchemaMapper.map_dpp
  rw [hdoc]
  simp only [hv]

/-- Witness for C3: the sample adapter applied twice to the same record. -/
theorem map_dpp_deterministic_witness :
    okMapper.map_dpp sampleDpp = okMapper.map_dpp sampleDpp
    ∧ okMapper.map_dpp sampleDpp = okMapper.map_dpp sampleDpp :=
  map_dpp_deterministic okMapper okMapper sampleDpp rfl rfl rfl rfl rfl rfl rfl rfl rfl
    (fun _ => rfl)

/-- C4: absent an override, map_part_class is an identity projection: the
produced document consists of exactly the four declared PartClass fields in
declaration order, and the original part is recovered from it field by
field. -/
theorem map_part_class_identity (m : SchemaMapper) (p : PartClass) :
    partClassOfDict (m.map_part_class p) = some p
    ∧ (m.map_part_class p).map Prod.fst = ["part_id", "name", "type", "properties"] := by
  constructor
  · show partClassOfDict (asdict p) = some p
    unfold partClassOfDict asdict
    simp
  · rfl

theorem mem_of_getLast_opt {α : Type} (l : List α) (a : α)
    (h : l.getLast? = some a) : a ∈ l := by
  induction l with
  | nil => simp at h
  | cons x xs ih =>
    cases xs with
    | nil =>
      simp at h
      simp [h]
    | cons y ys =>
      rw [List.getLast?_cons_cons] at h
      exact List.mem_cons_of_mem x (ih h)

theorem filter_getLast_isSome {α : Type} (l : List α) (p : α → Bool) (a : α)
    (ha : a ∈ l) (hpa : p a = true) : ∃ w, (l.filter p).getLast? = some w := by
  cases hl : (l.filter p).getLast? with
  | some w => exact ⟨w, rfl⟩
  | none =>
    have hempty : l.filter p = [] := List.getLast?_eq_none_iff.mp hl
    have hmem : a ∈ l.filter p := List.mem_filter.mpr ⟨ha, hpa⟩
    rw [hempty] at hmem
    exact absurd hmem (List.not_mem_nil a)

/-- C5: in the table load_units returns, every Unit element with a non-empty
(stripped) id attribute is keyed by that id; every Unit element without an
id but with a non-empty symbol is keyed by its symbol; and every retained
entry originates from some Unit element with that (non-empty) key and holds
that unit's name and symbol — so elements with neither id nor symbol
contribute no entry and no error arises. -/
theorem load_units_keying (root : XmlElem) :
    (∀ u ∈ findall_any_ns root "Unit", unitId u ≠ "" →
        ∃ v, List.lookup (unitId u) (load_units root) = some v)
    ∧ (∀ u ∈ findall_any_ns root "Unit", unitId u = "" → unitSymbol u ≠ "" →
        ∃ v, List.lookup (unitSymbol u) (load_units root) = some v)
    ∧ (∀ k v, List.lookup k (load_units root) = some v →
        ∃ u ∈ findall_any_ns root "Unit", unitKeyOf u = k ∧ k ≠ "" ∧ v = unitEntryOf u) := by
  refine ⟨?_, ?_, ?_⟩
  · intro u hu hid
    have hkey : unitKeyOf u = unitId u := by
      unfold unitKeyOf pyOr
      rw [if_neg hid]
    have hcontrib : unitContributes (unitId u) u = true := by
      unfold unitContributes
      rw [hkey]
      simp [hid]
    obtain ⟨w, hw⟩ := filter_getLast_isSome (findall_any_ns root "Unit")
      (unitContributes (unitId u)) u hu hcontrib
    refine ⟨unitEntryOf w, ?_⟩
    rw [lookup_load_units, hw]
  · intro u hu hid hsym
    have hkey : unitKeyOf u = unitSymbol u := by
      unfold unitKeyOf pyOr
      rw [if_pos hid]
    have hcontrib : unitContributes (unitSymbol u) u = true := by
      unfold unitContributes
      rw [hkey]
      simp [hsym]
    obtain ⟨w, hw⟩ := filter_getLast_isSome (findall_any_ns root "Unit")
      (unitContributes (unitSymbol u)) u hu hcontrib
    refine ⟨unitEntryOf w, ?_⟩
    rw [lookup_load_units, hw]
  · intro k v hv
    rw [lookup_load_units] at hv
    cases hl : ((findall_any_ns root "Unit").filter (unitContributes k)).getLast? with
    | none =>
      rw [hl] at hv
      simp at hv
    | some w =>
      rw [hl] at hv
      simp at hv
      have hwmem : w ∈ (findall_any_ns root "Unit").filter (unitContributes k) :=
        mem_of_getLast_opt _ _ hl
      obtain ⟨hwin, hwc⟩ := List.mem_filter.mp hwmem
      unfold unitContributes at hwc
      obtain ⟨h1, h2⟩ := Bool.and_eq_true_iff.mp hwc
      have hkeq := beq_iff_eq.mp h1
      refine ⟨w, hwin, hkeq, ?_, hv.symm⟩
      intro hk0
      rw [hk0] at hkeq
      rw [hkeq] at h2
      simp at h2

/-- Witness for C5: a concrete UnitsML document; the id-keyed unit and the
symbol-keyed (id-less) unit are both retained. -/
theorem load_units_keying_witness :
    (∃ v, List.lookup "u1" (load_units unitsRoot) = some v)
    ∧ (∃ v, List.lookup "kg" (load_units unitsRoot) = some v) := by
  constructor
  · have hmem : unitElemA ∈ findall_any_ns unitsRoot "Unit" := by
      show unitElemA ∈ [unitElemA, unitElemB]
      exact List.mem_cons_self _ _
    exact (load_units_keying unitsRoot).1 unitElemA hmem (by decide)
  · have hmem : unitElemB ∈ findall_any_ns unitsRoot "Unit" := by
      show unitElemB ∈ [unitElemA, unitElemB]
      exact List.mem_cons_of_mem _ (List.mem_cons_self _ _)
    exact (load_units_keying unitsRoot).2.1 unitElemB hmem (by decide) (by decide)

/-- C7: the namespace-agnostic lookup matches exactly the descendants whose
local tag name equals the requested name, whatever namespace (any URI, or
none) the element declares; the text variant returns the stripped text of
the first match, or the empty string when there is no match. -/
theorem findall_matches_descendants (e : XmlElem) (tag : String) :
    (∀ (n : Option String) (l : String) (attrs : List (String × String))
        (txt : Option String) (cs : List XmlElem),
        XmlElem.mk n l attrs txt cs ∈ findall_any_ns e tag ↔
          XmlElem.mk n l attrs txt cs ∈ e.descendants ∧ l = tag)
    ∧ (findall_any_ns e tag = [] → findtext_any_ns e tag = "")
    ∧ (∀ d rest, findall_any_ns e tag = d :: rest →
        findtext_any_ns e tag = pyStrip (d.textContent.getD "")) := by
  refine ⟨?_, ?_, ?_⟩
  · intro n l attrs txt cs
    unfold findall_any_ns
    rw [List.mem_filter]
    constructor
    · intro ⟨hmem, hb⟩
      exact ⟨hmem, beq_iff_eq.mp hb⟩
    · intro ⟨hmem, hl⟩
      exact ⟨hmem, beq_iff_eq.mpr hl⟩
  · intro h
    unfold findtext_any_ns
    rw [h]
  · intro d rest h
    unfold findtext_any_ns
    rw [h]
    cases rest <;> rfl

/-- Witness for C7: a document whose matching elements carry two different
namespaces; lookup finds both, and the text variant strips the first. -/
theorem findall_matches_descendants_witness :
    findtext_any_ns nsSampleRoot "T" = "hi"
    ∧ (tElemC ∈ findall_any_ns nsSampleRoot "T"
        ↔ tElemC ∈ nsSampleRoot.descendants ∧ "T" = "T") := by
  constructor
  · have h := (findall_matches_descendants nsSampleRoot "T").2.2 tElemB [tElemC] (by rfl)
    exact h.trans (by decide)
  · exact (findall_matches_descendants nsSampleRoot "T").1 none "T" [] (some "x") []

/-- C10: when several Unit elements yield the same key, the returned table
holds the entry of the last such element in document order. -/
theorem load_units_last_wins (root : XmlElem) (k : String) (u : XmlElem)
    (h : ((findall_any_ns root "Unit").filter (unitContributes k)).getLast? = some u) :
    List.lookup k (load_units root) = some (unitEntryOf u) := by
  rw [lookup_load_units, h]

/-- Witness for C10: two Unit elements share the id "u"; the table keeps the
second one's name. -/
theorem load_units_last_wins_witness :
    List.lookup "u" (load_units dupUnitsRoot) = some ⟨some "second", none⟩ :=
  load_units_last_wins dupUnitsRoot "u" unitDup2 (by rfl)

/-- C2 (counterexample): a class code parsed twice is NOT retained as the
entry of the last occurrence alone: the earlier occurrence's property links
survive. Parsing the duplicate document keeps links from both occurrences,
while the last occurrence alone yields a different entry. -/
theorem class_table_merges_not_overwrites :
    List.lookup "27" (load_properties_and_classes [dupClassDoc]).1
        = some ⟨"Second", ["P1", "P2"]⟩
    ∧ List.lookup "27" (load_properties_and_classes [lastOnlyClassDoc]).1
        = some ⟨"Second", ["P2"]⟩
    ∧ (⟨"Second", ["P1", "P2"]⟩ : ClassEntry) ≠ ⟨"Second", ["P2"]⟩ :=
  ⟨rfl, rfl, by decide⟩

/-- C2 (amended): when a duplicate identifier is encountered, the later
occurrence is merged into the retained entry rather than replacing it: for a
class, a later non-empty name overwrites the name (an empty one keeps the
earlier) and property links are appended across occurrences; for a property,
later non-empty name and unit_ref fields overwrite while empty fields keep
the earlier values. The retained entry is the left-to-right merge of all
occurrences of that identifier. -/
theorem duplicate_ids_merge (docs : List XmlElem) (code irdi : String) :
    List.lookup code (load_properties_and_classes docs).1
        = (classOccs docs code).foldl mergeClass none
    ∧ List.lookup irdi (load_properties_and_classes docs).2
        = (propOccs docs irdi).foldl mergeProp none :=
  ⟨lookup_classes_table docs code, lookup_props_table docs irdi⟩

/-- C6: for a fixed set of input documents, the classification parse is
independent of filesystem iteration order (the paths are deterministically
sorted first), and parsing twice yields identical class and property
tables. -/
theorem parse_order_independent (files₁ files₂ : List (String × XmlElem))
    (hperm : files₁.Perm files₂) (hnd : (files₁.map Prod.fst).Nodup) :
    loadFromDir files₁ = loadFromDir files₂
    ∧ loadFromDir files₁ = loadFromDir files₁ := by
  refine ⟨?_, rfl⟩
  unfold loadFromDir
  rw [sortPaths_eq_of_perm files₁ files₂ hperm hnd]

/-- Witness for C6: two files listed in the two possible directory orders
parse to the same tables. -/
theorem parse_order_independent_witness :
    loadFromDir [("a.xml", docA), ("b.xml", docB)]
        = loadFromDir [("b.xml", docB), ("a.xml", docA)]
    ∧ loadFromDir [("a.xml", docA), ("b.xml", docB)]
        = loadFromDir [("a.xml", docA), ("b.xml", docB)] :=
  parse_order_independent _ _ (List.Perm.swap ("b.xml", docB) ("a.xml", docA) [])
    (by decide)

/-- C8: a property whose unit reference does not resolve against the units
table still carries the raw reference in its unit_ref field, with the
resolved unit set to null; the entry is kept and no error arises. -/
theorem unresolved_unit_ref_retained (classes : Classes) (props : Props)
    (units : List (String × UnitEntry)) (code : String) (entry : ClassEntry)
    (irdi r : String) (p : PropEntry)
    (hnd : (classes.map Prod.fst).Nodup) (hm : (code, entry) ∈ classes)
    (hlink : irdi ∈ entry.properties) (hp : List.lookup irdi props = some p)
    (href : p.unit_ref = some r) (hrne : r ≠ "")
    (hunres : List.lookup r units = none) :
    ∃ mc, List.lookup code (build_part_class_mapping classes props units) = some mc
      ∧ List.lookup irdi mc.properties = some ⟨irdi, p.name, none, some r⟩ := by
  have hnonempty : propIsEmpty p = false := by
    unfold propIsEmpty
    rw [href]
    simp
  refine ⟨⟨code, entry.name, buildClassProps entry props units⟩,
    lookup_build_part_class_mapping classes props units code entry hnd hm, ?_⟩
  show List.lookup irdi (buildClassProps entry props units) = _
  unfold buildClassProps
  rw [lookup_foldl_addPropEntry_mem entry.properties [] props units irdi p hlink hp
    hnonempty]
  unfold mkMappedProp
  rw [href]
  have ht : pyTruthy (some r) = true := by simp [pyTruthy, hrne]
  simp [ht, hunres, pyOrOpt, pyTruthy]

/-- Witness for C8: a property linked from class C references unit U1 which
the (empty) units table cannot resolve; the emitted entry keeps unit_ref =
U1 and unit = null. -/
theorem unresolved_unit_ref_retained_witness :
    ∃ mc, List.lookup "C"
        (build_part_class_mapping [("C", ⟨"N", ["P"]⟩)]
          [("P", ⟨some "Pn", some "U1"⟩)] [])
        = some mc
      ∧ List.lookup "P" mc.properties = some ⟨"P", some "Pn", none, some "U1"⟩ :=
  unresolved_unit_ref_retained [("C", ⟨"N", ["P"]⟩)] [("P", ⟨some "Pn", some "U1"⟩)] []
    "C" ⟨"N", ["P"]⟩ "P" "U1" ⟨some "Pn", some "U1"⟩
    (by decide) (by decide) (by decide) rfl rfl (by decide) rfl

/-- C9 (counterexample): an IRDI that is linked from a class and present in
the parsed property table is nevertheless omitted from the output when its
table entry is empty (both name and unit_ref absent), so the output property
set is not the intersection of the links with the table keys. -/
theorem mapped_props_not_table_intersection :
    List.lookup "C" (build_part_class_mapping [("C", ⟨"N", ["P"]⟩)]
        [("P", (⟨none, none⟩ : PropEntry))] [])
      = some ⟨"C", "N", []⟩
    ∧ "P" ∈ (⟨"N", ["P"]⟩ : ClassEntry).properties
    ∧ (List.lookup "P" [("P", (⟨none, none⟩ : PropEntry))]).isSome = true :=
  ⟨rfl, by decide, rfl⟩

/-- C9 (amended): the property IRDIs of each output class entry are exactly
the class's linked IRDIs that resolve to a non-empty entry of the property
table; a linked IRDI absent from the table, or mapped to an entry with
neither name nor unit_ref, is silently omitted rather than kept as a
placeholder. -/
theorem mapped_props_are_kept_links (classes : Classes) (props : Props)
    (units : List (String × UnitEntry)) (code : String) (entry : ClassEntry)
    (hnd : (classes.map Prod.fst).Nodup) (hm : (code, entry) ∈ classes) :
    ∃ mc, List.lookup code (build_part_class_mapping classes props units) = some mc
      ∧ ∀ i, (List.lookup i mc.properties).isSome = true ↔
          (i ∈ entry.properties ∧ keptProp props i = true) := by
  refine ⟨⟨code, entry.name, buildClassProps entry props units⟩,
    lookup_build_part_class_mapping classes props units code entry hnd hm, ?_⟩
  intro i
  show (List.lookup i (buildClassProps entry props units)).isSome = true ↔ _
  unfold buildClassProps
  rw [isSome_foldl_addPropEntry]
  simp

/-- Witness for C9: class C links P (non-empty table entry, kept) and Q
(absent from the table, omitted). -/
theorem mapped_props_are_kept_links_witness :
    ∃ mc, List.lookup "C" (build_part_class_mapping [("C", ⟨"N", ["P", "Q"]⟩)]
        [("P", ⟨some "Pn", none⟩)] []) = some mc
      ∧ ∀ i, (List.lookup i mc.properties).isSome = true ↔
          (i ∈ (⟨"N", ["P", "Q"]⟩ : ClassEntry).properties
            ∧ keptProp [("P", ⟨some "Pn", none⟩)] i = true) :=
  mapped_props_are_kept_links [("C", ⟨"N", ["P", "Q"]⟩)] [("P", ⟨some "Pn", none⟩)] []
    "C" ⟨"N", ["P", "Q"]⟩ (by decide) (by decide)
